import Mathlib

/-!
Verification of the BlenderBIM drawing-generation pipeline
(`blenderbim/bim/module/drawing/operator.py` and `blenderbim/tool/spatial.py`)
against its natural-language specification.

The Python code is shallowly embedded: representation contexts, the bucketed
extraction loop with its geometry cache, the SVG merge/compose post-processing
and the hole-purging helpers become executable Lean definitions, and the spec
claims become theorems about them.
-/

namespace Drawing

/-! ## Context resolution (`CreateDrawing.generate_linework`, lines 367-435)

An `IfcGeometricRepresentationContext` as seen by the classification loop:
its entity id (`.id()`), whether it `is_a("IfcGeometricRepresentationSubContext")`,
and the `ContextType`, `ContextIdentifier` and `TargetView` attributes
(all optional in IFC, hence `Option String`; a Python `==` against `None`
is `false`). -/
structure RepContext where
  cid : Nat
  isSubContext : Bool
  contextType : Option String
  contextIdentifier : Option String
  targetView : Option String
deriving DecidableEq, Repr

/-- The eight accumulator lists set up before the classification loop
(operator.py lines 367-375). -/
structure ContextBuckets where
  plan_body_target_contexts : List Nat
  plan_body_model_contexts : List Nat
  model_body_target_contexts : List Nat
  model_body_model_contexts : List Nat
  plan_annotation_target_contexts : List Nat
  plan_annotation_model_contexts : List Nat
  model_annotation_target_contexts : List Nat
  model_annotation_model_contexts : List Nat
deriving DecidableEq, Repr

def ContextBuckets.empty : ContextBuckets := ⟨[], [], [], [], [], [], [], []⟩

/-- One iteration of the classification loop (operator.py lines 379-407):
the nested `if` cascade appending `rep_context.id()` to one of the eight
lists, including the final `elif` that sends a bare (non-sub-context)
"Model" context to `model_body_model_contexts`. -/
def classifyStep (target_view : String) (acc : ContextBuckets) (rc : RepContext) :
    ContextBuckets :=
  if rc.isSubContext then
    if rc.contextType == some "Plan" then
      if rc.contextIdentifier == some "Body" || rc.contextIdentifier == some "Facetation" then
        if rc.targetView == some target_view then
          { acc with plan_body_target_contexts := acc.plan_body_target_contexts ++ [rc.cid] }
        else if rc.targetView == some "MODEL_VIEW" then
          { acc with plan_body_model_contexts := acc.plan_body_model_contexts ++ [rc.cid] }
        else acc
      else if rc.contextIdentifier == some "Annotation" then
        if rc.targetView == some target_view then
          { acc with plan_annotation_target_contexts := acc.plan_annotation_target_contexts ++ [rc.cid] }
        else if rc.targetView == some "MODEL_VIEW" then
          { acc with plan_annotation_model_contexts := acc.plan_annotation_model_contexts ++ [rc.cid] }
        else acc
      else acc
    else if rc.contextType == some "Model" then
      if rc.contextIdentifier == some "Body" || rc.contextIdentifier == some "Facetation" then
        if rc.targetView == some target_view then
          { acc with model_body_target_contexts := acc.model_body_target_contexts ++ [rc.cid] }
        else if rc.targetView == some "MODEL_VIEW" then
          { acc with model_body_model_contexts := acc.model_body_model_contexts ++ [rc.cid] }
        else acc
      else if rc.contextIdentifier == some "Annotation" then
        if rc.targetView == some target_view then
          { acc with model_annotation_target_contexts := acc.model_annotation_target_contexts ++ [rc.cid] }
        else if rc.targetView == some "MODEL_VIEW" then
          { acc with model_annotation_model_contexts := acc.model_annotation_model_contexts ++ [rc.cid] }
        else acc
      else acc
    else acc
  else if rc.contextType == some "Model" then
    { acc with model_body_model_contexts := acc.model_body_model_contexts ++ [rc.cid] }
  else acc

/-- The whole classification loop over the model's representation contexts. -/
def classifyContexts (target_view : String) (contexts : List RepContext) : ContextBuckets :=
  contexts.foldl (classifyStep target_view) ContextBuckets.empty

/-- `body_contexts` (operator.py lines 409-421). -/
def bodyContexts (target_view : String) (contexts : List RepContext) : List (List Nat) :=
  let b := classifyContexts target_view contexts
  if target_view == "PLAN_VIEW" || target_view == "REFLECTED_PLAN_VIEW" then
    [b.plan_body_target_contexts, b.plan_body_model_contexts,
     b.model_body_target_contexts, b.model_body_model_contexts]
  else
    [b.model_body_target_contexts, b.model_body_model_contexts]

/-- `annotation_contexts` (operator.py lines 423-435). -/
def annotationContexts (target_view : String) (contexts : List RepContext) : List (List Nat) :=
  let b := classifyContexts target_view contexts
  if target_view == "PLAN_VIEW" || target_view == "REFLECTED_PLAN_VIEW" then
    [b.plan_annotation_target_contexts, b.plan_annotation_model_contexts,
     b.model_annotation_target_contexts, b.model_annotation_model_contexts]
  else
    [b.model_annotation_target_contexts, b.model_annotation_model_contexts]

/-! Declarative characterisations of the eight buckets, phrased from the
claim: a bucket is the (order-preserving) list of ids of the contexts
satisfying its membership predicate. -/

def isBodyId (rc : RepContext) : Bool :=
  rc.contextIdentifier == some "Body" || rc.contextIdentifier == some "Facetation"

def pbeP (tv : String) (rc : RepContext) : Bool :=
  rc.isSubContext && rc.contextType == some "Plan" && isBodyId rc && rc.targetView == some tv

def pbfP (tv : String) (rc : RepContext) : Bool :=
  rc.isSubContext && rc.contextType == some "Plan" && isBodyId rc &&
    !(rc.targetView == some tv) && rc.targetView == some "MODEL_VIEW"

def mbeP (tv : String) (rc : RepContext) : Bool :=
  rc.isSubContext && rc.contextType == some "Model" && isBodyId rc && rc.targetView == some tv

def mbfP (tv : String) (rc : RepContext) : Bool :=
  (rc.isSubContext && rc.contextType == some "Model" && isBodyId rc &&
    !(rc.targetView == some tv) && rc.targetView == some "MODEL_VIEW") ||
  (!rc.isSubContext && rc.contextType == some "Model")

def paeP (tv : String) (rc : RepContext) : Bool :=
  rc.isSubContext && rc.contextType == some "Plan" &&
    rc.contextIdentifier == some "Annotation" && rc.targetView == some tv

def pafP (tv : String) (rc : RepContext) : Bool :=
  rc.isSubContext && rc.contextType == some "Plan" &&
    rc.contextIdentifier == some "Annotation" &&
    !(rc.targetView == some tv) && rc.targetView == some "MODEL_VIEW"

def maeP (tv : String) (rc : RepContext) : Bool :=
  rc.isSubContext && rc.contextType == some "Model" &&
    rc.contextIdentifier == some "Annotation" && rc.targetView == some tv

def mafP (tv : String) (rc : RepContext) : Bool :=
  rc.isSubContext && rc.contextType == some "Model" &&
    rc.contextIdentifier == some "Annotation" &&
    !(rc.targetView == some tv) && rc.targetView == some "MODEL_VIEW"

def planBodyExact (tv : String) (cs : List RepContext) : List Nat :=
  (cs.filter (pbeP tv)).map RepContext.cid

def planBodyFallback (tv : String) (cs : List RepContext) : List Nat :=
  (cs.filter (pbfP tv)).map RepContext.cid

def modelBodyExact (tv : String) (cs : List RepContext) : List Nat :=
  (cs.filter (mbeP tv)).map RepContext.cid

def modelBodyFallback (tv : String) (cs : List RepContext) : List Nat :=
  (cs.filter (mbfP tv)).map RepContext.cid

def planAnnExact (tv : String) (cs : List RepContext) : List Nat :=
  (cs.filter (paeP tv)).map RepContext.cid

def planAnnFallback (tv : String) (cs : List RepContext) : List Nat :=
  (cs.filter (pafP tv)).map RepContext.cid

def modelAnnExact (tv : String) (cs : List RepContext) : List Nat :=
  (cs.filter (maeP tv)).map RepContext.cid

def modelAnnFallback (tv : String) (cs : List RepContext) : List Nat :=
  (cs.filter (mafP tv)).map RepContext.cid

/-- Contribution of one context to one bucket. -/
def contrib (p : Bool) (cid : Nat) : List Nat := if p then [cid] else []

/-! ## Bucketed extraction with the geometry cache
(`CreateDrawing.generate_linework`, lines 437-459)

Elements are identified by their GUID. The geometry type `G` is opaque
(the projected/triangulated shapes computed by the iterator). The
`ifcopenshell.geom.iterator` with `set_cache` and the HDF5 cache are external
library code: they are modelled, per the spec, as an association list keyed
by GUID, where a hit is reused verbatim and a miss computes and stores.
`hasRep e c` says the iterator yields element `e` under context id `c`. -/

abbrev GUID := String

abbrev Cache (G : Type) := List (GUID × G)

/-- First-match lookup in the cache. -/
def lookupC {G : Type} : Cache G → GUID → Option G
  | [], _ => none
  | (k, v) :: rest, e => if k = e then some v else lookupC rest e

/-- `[cache.remove(guid) for guid in invalidated_guids]` (operator.py line 441). -/
def evict {G : Type} (cache : Cache G) (invalidated : List GUID) : Cache G :=
  cache.filter (fun kv => !(invalidated.contains kv.1))

/-- Whether a bucket (list of context ids) yields geometry for element `e`:
the iterator constructed with these context ids produces a shape for `e`. -/
def representedIn (hasRep : GUID → Nat → Bool) (e : GUID) (bucket : List Nat) : Bool :=
  bucket.any (hasRep e)

/-- Serialize one bucket's worth of elements through the cache: each yielded
element is looked up (hit: reuse the stored geometry; miss: compute and
store) and written to the serialiser. The log records, per written element,
its GUID, the geometry written, and whether it was recomputed. -/
def processElems {G : Type} (compute : GUID → G) :
    List GUID → Cache G → List (GUID × G × Bool) × Cache G
  | [], cache => ([], cache)
  | e :: rest, cache =>
    match lookupC cache e with
    | some g =>
      let r := processElems compute rest cache
      ((e, g, false) :: r.1, r.2)
    | none =>
      let g := compute e
      let r := processElems compute rest ((e, g) :: cache)
      ((e, g, true) :: r.1, r.2)

/-- The body-context loop (operator.py lines 443-459): for each bucket, if
both the bucket and the working set are non-empty, serialize every working
element the iterator yields for that bucket, then remove the processed
elements from the working set before the next bucket. Returns the write log,
the final working set and the final cache. -/
def processBuckets {G : Type} (compute : GUID → G) (hasRep : GUID → Nat → Bool) :
    List (List Nat) → List GUID → Cache G →
      List (GUID × G × Bool) × List GUID × Cache G
  | [], elements, cache => ([], elements, cache)
  | b :: rest, elements, cache =>
    if b ≠ [] ∧ elements ≠ [] then
      let todo := elements.filter (fun e => representedIn hasRep e b)
      let r₁ := processElems compute todo cache
      let remaining := elements.filter (fun e => !(representedIn hasRep e b))
      let r₂ := processBuckets compute hasRep rest remaining r₁.2
      (r₁.1 ++ r₂.1, r₂.2)
    else processBuckets compute hasRep rest elements cache

/-- The cache-facing portion of a linework-generation invocation
(operator.py lines 440-459): evict every invalidated GUID from the cache,
then run the bucketed extraction over the drawing's elements. -/
def lineworkRun {G : Type} (compute : GUID → G) (hasRep : GUID → Nat → Bool)
    (cache₀ : Cache G) (invalidated : List GUID) (buckets : List (List Nat))
    (drawing_elements : List GUID) :
    List (GUID × G × Bool) × List GUID × Cache G :=
  processBuckets compute hasRep buckets drawing_elements (evict cache₀ invalidated)

/-- The GUIDs written to the serialiser, in order. -/
def logKeys {G : Type} (log : List (GUID × G × Bool)) : List GUID :=
  log.map (fun en => en.1)

/-! ## Polygon merging (`CreateDrawing.merge_linework_and_add_metadata`,
operator.py lines 535-599)

Coordinates are modelled as rationals. A fragment (`g` element tagged with a
GUID) carries its class tokens and its `path` children; each path's `d`
attribute, after the `split("M")` / `split(",")` parsing of lines 574-576,
is a list of sub-paths, each a list of coordinate pairs. -/

abbrev Pt := ℚ × ℚ

/-- `round(float(o), 1)` of line 576: round to one decimal place. (Python
uses banker's rounding at ties; no statement in this file depends on the
tie-breaking rule.) -/
def round1 (q : ℚ) : ℚ := (round (10 * q) : ℚ) / 10

def roundPt (p : Pt) : Pt := (round1 p.1, round1 p.2)

abbrev Subpath := List Pt

structure FragT where
  guid : GUID
  classAttr : List String
  paths : List (List Subpath)
deriving DecidableEq

/-- Lines 576-577: the rounded coordinate list of a sub-path makes it a
closed ring when it has more than two points and its first and last rounded
points coincide. -/
def isClosedSubpath (sp : Subpath) : Bool :=
  let coords := sp.map roundPt
  decide (2 < coords.length) && decide (coords.head? = coords.getLast?)

/-- The per-element `is_closed_polygon` flag of lines 572-578. -/
def is_closed_polygon (el : FragT) : Bool :=
  el.paths.any (fun path => path.any isClosedSubpath)

/-- The claim's closed-ring criterion, verbatim: some sub-path's first and
last point coincide after rounding (no condition on the point count). -/
def claimClosed (el : FragT) : Bool :=
  el.paths.any (fun path => path.any (fun sp =>
    decide ((sp.map roundPt).head? = (sp.map roundPt).getLast?)))

/-- The `shapely.Polygon(coords)` values appended for an element's closed
sub-paths (line 579), in iteration order. -/
def closedPolysOf (el : FragT) : List (List Pt) :=
  el.paths.flatMap (fun path =>
    (path.filter isClosedSubpath).map (fun sp => sp.map roundPt))

/-- A shapely polygon: exterior ring plus interior rings (holes). -/
structure PolyT where
  exterior : List Pt
  interiors : List (List Pt)
deriving DecidableEq

/-- A shapely geometry as dispatched on by the merging and hole-purging
code: `Polygon`, `MultiPolygon`, or the empty `GEOMETRYCOLLECTION` that
`shapely.ops.unary_union` returns for an empty input. -/
inductive ShapelyGeom where
  | polygonS (p : PolyT)
  | multiPolygonS (ps : List PolyT)
  | emptyS
deriving DecidableEq

/-- Lines 585-588 plus the iteration of line 591: a `MultiPolygon` is
replaced by its `.geoms`, a `Polygon` is wrapped in a singleton list, and any
other geometry is left as is — so line 591 then iterates it directly, which
under the shapely 2.x API this code imports (top-level `shapely.Polygon` /
`shapely.MultiPolygon`) raises `TypeError`: shapely 2.x geometries, the empty
`GeometryCollection` returned by `unary_union([])` included, are not
iterable. -/
def geomPolys : ShapelyGeom → Except String (List PolyT)
  | .multiPolygonS ps => .ok ps
  | .polygonS p => .ok [p]
  | .emptyS => .error "TypeError: GeometryCollection is not iterable"

/-- The `classes` set accumulated over a material group (lines 569-571):
every fragment's class tokens plus its GUID. -/
def groupClasses (els : List FragT) : Finset String :=
  els.foldl (fun acc el => acc ∪ el.classAttr.toFinset ∪ {el.guid}) ∅

/-- A merged `g`/`path` emitted for one result polygon (lines 591-599). -/
structure MergedFrag where
  classes : Finset String
  poly : PolyT
deriving DecidableEq

/-- Processing of one material group (lines 565-599). `unionFn` stands for
`shapely.ops.unary_union`, external library code; an `error` result models a
raised exception, which the code does not catch — the group's closed-ring
fragments have already been removed from the document (line 581) before the
union runs (line 583). On success, returns the fragments removed from the
document and the merged fragments emitted. -/
def mergeGroup (unionFn : List (List Pt) → Except String ShapelyGeom)
    (els : List FragT) : Except String (List FragT × List MergedFrag) :=
  let polygons := els.flatMap closedPolysOf
  let removed := els.filter is_closed_polygon
  match unionFn polygons with
  | .error msg => .error msg
  | .ok geom =>
    match geomPolys geom with
    | .error msg => .error msg
    | .ok ps => .ok (removed, ps.map (fun p => ⟨groupClasses els, p⟩))

/-- The loop over `joined_paths.items()` (line 565): groups are processed in
order; an uncaught exception in any group aborts the whole merge step (and
with it `generate_linework`, which would have written the output document
only after this step returns). -/
def mergeAllGroups (unionFn : List (List Pt) → Except String ShapelyGeom) :
    List (List FragT) → Except String (List (List FragT × List MergedFrag))
  | [] => .ok []
  | g :: rest =>
    match mergeGroup unionFn g with
    | .error msg => .error msg
    | .ok r =>
      match mergeAllGroups unionFn rest with
      | .error msg => .error msg
      | .ok rs => .ok (r :: rs)

/-- A boolean union that raises, for exercising the failure path. -/
def unionFail : List (List Pt) → Except String ShapelyGeom :=
  fun _ => .error "TopologyException"

/-- A fragment with one closed triangular ring. -/
def frag_closed : FragT := ⟨"a", [], [[[(0, 0), (1, 0), (1, 1), (0, 0)]]]⟩

/-- A fragment whose only sub-path has two coincident points: first and last
rounded points coincide, but the point count is not greater than two. -/
def frag_degenerate : FragT := ⟨"d", [], [[[(1, 1), (1, 1)]]]⟩

/-! ## SVG composition (`CreateDrawing.combine_svgs`, operator.py lines
235-277). A layer document is its list of lines; the output is the ordered
list of strings written to the output file. -/

/-- Whether `pat` is a leading segment of `l`. -/
def isPrefOf : List Char → List Char → Bool
  | [], _ => true
  | _ :: _, [] => false
  | a :: as, b :: bs => a == b && isPrefOf as bs

def hasSubAux (pat : List Char) : List Char → Bool
  | [] => pat.isEmpty
  | c :: rest => isPrefOf pat (c :: rest) || hasSubAux pat rest

/-- Python's `pat in line` substring test. -/
def hasSub (line pat : String) : Bool := hasSubAux pat.data line.data

/-- Remove every occurrence of `pat` (fuel-driven scan over the characters;
the fuel starts at the string length, enough for the whole scan). -/
def removeSubAux (pat : List Char) : Nat → List Char → List Char
  | 0, l => l
  | _ + 1, [] => []
  | fuel + 1, c :: rest =>
    if isPrefOf pat (c :: rest) && !pat.isEmpty then
      removeSubAux pat fuel ((c :: rest).drop pat.length)
    else c :: removeSubAux pat fuel rest

/-- Python's `s.replace(pat, "")`. -/
def removeSub (s pat : String) : String := ⟨removeSubAux pat.data s.data.length s.data⟩

/-- The underlay loop (lines 244-249), also used verbatim for the annotation
layer (lines 270-275): skip the first two lines (`i < 2`) and every line
containing the closing svg tag; `i` is the running line index. -/
def filterSkipTwo : Nat → List String → List String
  | _, [] => []
  | i, line :: rest =>
    if i < 2 then filterSkipTwo (i + 1) rest
    else if hasSub line "</svg>" then filterSkipTwo (i + 1) rest
    else line :: filterSkipTwo (i + 1) rest

/-- The linework loop (lines 253-267): skip the first line (`i == 0`), every
closing-svg line, and everything from a `<defs>` line to the matching
`</defs>` line inclusive (the `should_skip` flag). -/
def filterLinework : Nat → Bool → List String → List String
  | _, _, [] => []
  | i, should_skip, line :: rest =>
    if i == 0 then filterLinework (i + 1) should_skip rest
    else if hasSub line "</svg>" then filterLinework (i + 1) should_skip rest
    else if hasSub line "<defs>" then filterLinework (i + 1) true rest
    else if hasSub line "</defs>" then filterLinework (i + 1) false rest
    else if should_skip then filterLinework (i + 1) should_skip rest
    else line :: filterLinework (i + 1) should_skip rest

/-- Index-free form of the linework body filter: drop closing-svg lines and
defs blocks. -/
def stripDefs : Bool → List String → List String
  | _, [] => []
  | skip, line :: rest =>
    if hasSub line "</svg>" then stripDefs skip rest
    else if hasSub line "<defs>" then stripDefs true rest
    else if hasSub line "</defs>" then stripDefs false rest
    else if skip then stripDefs skip rest
    else line :: stripDefs skip rest

/-- `combine_svgs` (lines 235-277): write the boilerplate with its closing
tag removed, then the filtered underlay, linework and annotation layers in
that fixed order, then the closing tag. Absent layers contribute nothing. -/
def combine_svgs (boilerplate : String)
    (underlay linework annotLayer : Option (List String)) : List String :=
  (removeSub boilerplate "</svg>") ::
    ((match underlay with | some u => filterSkipTwo 0 u | none => []) ++
     (match linework with | some l => filterLinework 0 false l | none => []) ++
     (match annotLayer with | some a => filterSkipTwo 0 a | none => []) ++
     ["</svg>"])

/-- The claim's composition, verbatim: each layer keeps its body content from
the second line onward (only its own first line dropped), closing-svg lines
stripped, the linework defs block stripped, same fixed order and envelope. -/
def specCombine (boilerplate : String)
    (underlay linework annotLayer : Option (List String)) : List String :=
  (removeSub boilerplate "</svg>") ::
    ((match underlay with
      | some u => (u.drop 1).filter (fun s => !hasSub s "</svg>")
      | none => []) ++
     (match linework with
      | some l => stripDefs false (l.drop 1)
      | none => []) ++
     (match annotLayer with
      | some a => (a.drop 1).filter (fun s => !hasSub s "</svg>")
      | none => []) ++
     ["</svg>"])

/-! ## `CreateDrawing.move_projection_to_bottom` (operator.py lines 601-606)
and SVG paint order. -/

/-- A direct child of the svg root: the top-level `g` group (children
identified by numeric ids) or any other element. -/
inductive TopEl where
  | gEl (children : List Nat)
  | otherEl (tag : String)
deriving DecidableEq

/-- `root.find(g)` followed by `group[:] = reversed(group)`: the first
top-level group's direct children are replaced by their reverse; with no
group present, nothing happens. -/
def move_projection_to_bottom : List TopEl → List TopEl
  | [] => []
  | .gEl cs :: rest => .gEl cs.reverse :: rest
  | .otherEl t :: rest => .otherEl t :: move_projection_to_bottom rest

/-- SVG paint-order semantics: `x` renders visually above `y` when some
occurrence of `x` comes later in the children list than some occurrence of
`y` (later siblings are painted on top). -/
def rendersAbove (children : List Nat) (x y : Nat) : Prop :=
  ∃ p q : Fin children.length, p < q ∧ children.get p = y ∧ children.get q = x

instance (children : List Nat) (x y : Nat) : Decidable (rendersAbove children x y) := by
  unfold rendersAbove
  exact inferInstance

/-! ## Hole purging (`Spatial.get_converted_tolerance`,
`Spatial.get_purged_inner_holes_poly`, `Spatial.get_poly_valid_interior_list`,
spatial.py lines 320-361). -/

/-- Cross-product sum of the shoelace formula along `first :: ...`,
closing the cycle back to `first`. -/
def shoelaceAux (first : Pt) : List Pt → ℚ
  | [] => 0
  | [p] => p.1 * first.2 - first.1 * p.2
  | p :: q :: rest => (p.1 * q.2 - q.1 * p.2) + shoelaceAux first (q :: rest)

/-- `shapely.Polygon(ring).area`: absolute shoelace area of the ring. -/
def ringArea (r : List Pt) : ℚ :=
  match r with
  | [] => 0
  | p :: _ => |shoelaceAux p r| / 2

/-- `Spatial.get_poly_valid_interior_list` (spatial.py lines 355-361):
append to `interiors_list` every interior ring whose area is at least
`min_area`. -/
def get_poly_valid_interior_list (poly : PolyT) (min_area : ℚ)
    (interiors_list : List (List Pt)) : List (List Pt) :=
  poly.interiors.foldl
    (fun acc interior => if ringArea interior ≥ min_area then acc ++ [interior] else acc)
    interiors_list

/-- `Spatial.get_purged_inner_holes_poly` (spatial.py lines 335-353). For a
`MultiPolygon`, the loop variable `poly` is left bound to the last iterated
sub-polygon and its exterior becomes the result's exterior; an empty
`MultiPolygon` (or any other geometry type) leaves `new_poly` unbound — a
`NameError`, modelled as `none`. -/
def get_purged_inner_holes_poly (union_geom : ShapelyGeom) (min_area : ℚ) :
    Option PolyT :=
  match union_geom with
  | .multiPolygonS ps =>
    let interiors_list :=
      ps.foldl (fun acc poly => get_poly_valid_interior_list poly min_area acc) []
    match ps.getLast? with
    | some poly => some ⟨poly.exterior, interiors_list⟩
    | none => none
  | .polygonS poly =>
    some ⟨poly.exterior, get_poly_valid_interior_list poly min_area []⟩
  | .emptyS => none

/-- Modelled from the spec: `ifcopenshell.util.unit.convert` (not under
`src/`) converts a value between length units; converting metres into the
project's length unit multiplies by the unit's scale factor (e.g. 1000 for a
millimetre project). -/
def convertLength (value : ℚ) (unitScale : ℚ) : ℚ := value * unitScale

/-- `Spatial.get_converted_tolerance` (spatial.py lines 320-333): computes
the converted tolerance for the project's length unit, then returns the
unconverted `tolerance` argument. -/
def get_converted_tolerance (unitScale : ℚ) (tolerance : ℚ) : ℚ :=
  let converted_tolerance := convertLength tolerance unitScale
  tolerance

/-- A unit square ring, area 1 (below a threshold of 3). -/
def ringSmall : List Pt := [(0, 0), (1, 0), (1, 1), (0, 1)]

/-- A 4-by-4 square ring, area 16 (above a threshold of 3). -/
def ringBig : List Pt := [(0, 0), (4, 0), (4, 4), (0, 4)]

def polyA : PolyT := ⟨[(0, 0), (20, 0), (20, 20), (0, 20)], [ringSmall]⟩

def polyB : PolyT := ⟨[(30, 30), (40, 30), (40, 40), (30, 40)], [ringBig]⟩

lemma classifyStepChar (tv : String) (acc : ContextBuckets) (rc : RepContext) :
    classifyStep tv acc rc =
      ⟨acc.plan_body_target_contexts ++ contrib (pbeP tv rc) rc.cid,
       acc.plan_body_model_contexts ++ contrib (pbfP tv rc) rc.cid,
       acc.model_body_target_contexts ++ contrib (mbeP tv rc) rc.cid,
       acc.model_body_model_contexts ++ contrib (mbfP tv rc) rc.cid,
       acc.plan_annotation_target_contexts ++ contrib (paeP tv rc) rc.cid,
       acc.plan_annotation_model_contexts ++ contrib (pafP tv rc) rc.cid,
       acc.model_annotation_target_contexts ++ contrib (maeP tv rc) rc.cid,
       acc.model_annotation_model_contexts ++ contrib (mafP tv rc) rc.cid⟩ := by
  unfold classifyStep
  split_ifs with h1 h2 h3 h4 h5 h6 h7 h8 h9 h10 h11 h12 h13 h14 h15 h16 <;>
    simp_all [pbeP, pbfP, mbeP, mbfP, paeP, pafP, maeP, mafP, isBodyId, contrib] <;>
    casesm* _ ∨ _ <;> simp_all

lemma filter_map_cons (p : RepContext → Bool) (rc : RepContext) (cs : List RepContext) :
    ((rc :: cs).filter p).map RepContext.cid =
      contrib (p rc) rc.cid ++ (cs.filter p).map RepContext.cid := by
  rcases h : p rc <;> simp [List.filter_cons, h, contrib]

lemma classify_fold_char (tv : String) (cs : List RepContext) (acc : ContextBuckets) :
    cs.foldl (classifyStep tv) acc =
      ⟨acc.plan_body_target_contexts ++ planBodyExact tv cs,
       acc.plan_body_model_contexts ++ planBodyFallback tv cs,
       acc.model_body_target_contexts ++ modelBodyExact tv cs,
       acc.model_body_model_contexts ++ modelBodyFallback tv cs,
       acc.plan_annotation_target_contexts ++ planAnnExact tv cs,
       acc.plan_annotation_model_contexts ++ planAnnFallback tv cs,
       acc.model_annotation_target_contexts ++ modelAnnExact tv cs,
       acc.model_annotation_model_contexts ++ modelAnnFallback tv cs⟩ := by
  induction cs generalizing acc with
  | nil =>
    simp [planBodyExact, planBodyFallback, modelBodyExact, modelBodyFallback,
      planAnnExact, planAnnFallback, modelAnnExact, modelAnnFallback]
  | cons rc rest ih =>
    rw [List.foldl_cons, ih, classifyStepChar]
    simp only [planBodyExact, planBodyFallback, modelBodyExact, modelBodyFallback,
      planAnnExact, planAnnFallback, modelAnnExact, modelAnnFallback,
      filter_map_cons, List.append_assoc]

theorem classifyContexts_eq (tv : String) (cs : List RepContext) :
    classifyContexts tv cs =
      ⟨planBodyExact tv cs, planBodyFallback tv cs,
       modelBodyExact tv cs, modelBodyFallback tv cs,
       planAnnExact tv cs, planAnnFallback tv cs,
       modelAnnExact tv cs, modelAnnFallback tv cs⟩ := by
  unfold classifyContexts
  rw [classify_fold_char]
  simp [ContextBuckets.empty]

lemma processElems_keys {G : Type} (compute : GUID → G) (todo : List GUID)
    (cache : Cache G) : logKeys (processElems compute todo cache).1 = todo := by
  induction todo generalizing cache with
  | nil => simp [processElems, logKeys]
  | cons a rest ih =>
    simp only [processElems]
    cases lookupC cache a with
    | some w =>
      have h := ih cache
      simp only [logKeys, List.map_cons] at h ⊢
      rw [h]
    | none =>
      have h := ih ((a, compute a) :: cache)
      simp only [logKeys, List.map_cons] at h ⊢
      rw [h]

lemma mem_log_key {G : Type} {compute : GUID → G} {todo : List GUID}
    {cache : Cache G} {e : GUID} {g : G} {r : Bool}
    (h : (e, g, r) ∈ (processElems compute todo cache).1) : e ∈ todo := by
  have := processElems_keys compute todo cache
  rw [← this]
  exact List.mem_map.mpr ⟨(e, g, r), h, rfl⟩

lemma lookupC_cons_ne {G : Type} {k e : GUID} (hne : k ≠ e) (v : G) (c : Cache G) :
    lookupC ((k, v) :: c) e = lookupC c e := by
  simp [lookupC, hne]

/-- A cache hit is stable under further processing: the stored geometry is
reused verbatim (never recomputed) every time the element is written, and the
entry's content is unchanged at the end. -/
lemma processElems_lookup_some {G : Type} (compute : GUID → G) {e : GUID} {v : G} :
    ∀ (todo : List GUID) (cache : Cache G), lookupC cache e = some v →
      (∀ g r, (e, g, r) ∈ (processElems compute todo cache).1 → g = v ∧ r = false) ∧
      lookupC (processElems compute todo cache).2 e = some v := by
  intro todo
  induction todo with
  | nil => intro cache h; simp [processElems, h]
  | cons a rest ih =>
    intro cache h
    simp only [processElems]
    cases hla : lookupC cache a with
    | some w =>
      have hrec := ih cache h
      refine ⟨?_, hrec.2⟩
      intro g r hmem
      simp only [List.mem_cons] at hmem
      rcases hmem with heq | hmem
      · simp only [Prod.ext_iff] at heq
        obtain ⟨he, hg, hr⟩ := heq
        rw [he, hla] at h
        exact ⟨hg.trans (Option.some_injective G h), hr⟩
      · exact hrec.1 g r hmem
    | none =>
      have hne : a ≠ e := by
        intro hae; subst hae; rw [h] at hla; exact Option.noConfusion hla
      have h' : lookupC ((a, compute a) :: cache) e = some v := by
        rw [lookupC_cons_ne hne]; exact h
      have hrec := ih _ h'
      refine ⟨?_, hrec.2⟩
      intro g r hmem
      simp only [List.mem_cons] at hmem
      rcases hmem with heq | hmem
      · simp only [Prod.ext_iff] at heq
        exact absurd heq.1.symm hne
      · exact hrec.1 g r hmem

/-- A missing entry stays missing while other elements are processed, and when
the element itself is processed (once, the list being duplicate-free) it is
recomputed, written with the freshly computed geometry and stored. -/
lemma processElems_lookup_none {G : Type} (compute : GUID → G) {e : GUID} :
    ∀ (todo : List GUID) (cache : Cache G), todo.Nodup → lookupC cache e = none →
      (∀ g r, (e, g, r) ∈ (processElems compute todo cache).1 →
        g = compute e ∧ r = true) ∧
      (e ∈ todo → lookupC (processElems compute todo cache).2 e = some (compute e)) ∧
      (e ∉ todo → lookupC (processElems compute todo cache).2 e = none) := by
  intro todo
  induction todo with
  | nil =>
    intro cache _ h
    simp [processElems, h]
  | cons a rest ih =>
    intro cache hnd h
    have hndr : rest.Nodup := hnd.of_cons
    by_cases hae : a = e
    · subst hae
      simp only [processElems, h]
      have h' : lookupC ((a, compute a) :: cache) a = some (compute a) := by
        simp [lookupC]
      have hs := processElems_lookup_some compute rest _ h'
      refine ⟨?_, fun _ => hs.2, fun hna => absurd (List.mem_cons_self a rest) hna⟩
      intro g r hmem
      simp only [List.mem_cons] at hmem
      rcases hmem with heq | hmem
      · simp only [Prod.ext_iff] at heq
        exact ⟨heq.2.1, heq.2.2⟩
      · have hna : a ∉ rest := (List.nodup_cons.mp hnd).1
        exact absurd (mem_log_key hmem) hna
    · simp only [processElems]
      cases hla : lookupC cache a with
      | some w =>
        have := ih cache hndr h
        refine ⟨?_, ?_, ?_⟩
        · intro g r hmem
          simp only [List.mem_cons] at hmem
          rcases hmem with heq | hmem
          · simp only [Prod.ext_iff] at heq
            exact absurd heq.1.symm hae
          · exact this.1 g r hmem
        · intro hml
          rcases List.mem_cons.mp hml with h1 | h1
          · exact absurd h1.symm hae
          · exact this.2.1 h1
        · intro hml
          exact this.2.2 (fun hr => hml (List.mem_cons_of_mem a hr))
      | none =>
        have h' : lookupC ((a, compute a) :: cache) e = none := by
          rw [lookupC_cons_ne hae]; exact h
        have := ih _ hndr h'
        refine ⟨?_, ?_, ?_⟩
        · intro g r hmem
          simp only [List.mem_cons] at hmem
          rcases hmem with heq | hmem
          · simp only [Prod.ext_iff] at heq
            exact absurd heq.1.symm hae
          · exact this.1 g r hmem
        · intro hml
          rcases List.mem_cons.mp hml with h1 | h1
          · exact absurd h1.symm hae
          · exact this.2.1 h1
        · intro hml
          exact this.2.2 (fun hr => hml (List.mem_cons_of_mem a hr))

/-- An element no longer in the working set is never written by the remaining
buckets. -/
lemma processBuckets_not_mem {G : Type} (compute : GUID → G)
    (hasRep : GUID → Nat → Bool) {e : GUID} :
    ∀ (buckets : List (List Nat)) (elements : List GUID) (cache : Cache G),
      e ∉ elements → ∀ g r,
        (e, g, r) ∉ (processBuckets compute hasRep buckets elements cache).1 := by
  intro buckets
  induction buckets with
  | nil => intro elements cache _ g r; simp [processBuckets]
  | cons b rest ih =>
    intro elements cache hne g r
    simp only [processBuckets]
    split
    · intro hmem
      rcases List.mem_append.mp hmem with h1 | h1
      · exact hne (List.mem_filter.mp (mem_log_key h1)).1
      · exact ih _ _ (fun hr => hne (List.mem_filter.mp hr).1) g r h1
    · exact ih _ _ hne g r

/-- Count of fragments written for GUID `e` over a whole bucketed run. -/
lemma processBuckets_count {G : Type} (compute : GUID → G)
    (hasRep : GUID → Nat → Bool) (e : GUID) :
    ∀ (buckets : List (List Nat)) (elements : List GUID) (cache : Cache G),
      elements.Nodup →
      (logKeys (processBuckets compute hasRep buckets elements cache).1).count e =
        (if e ∈ elements ∧ ∃ b ∈ buckets, representedIn hasRep e b then 1 else 0) := by
  intro buckets
  induction buckets with
  | nil =>
    intro elements cache _
    simp [processBuckets, logKeys]
  | cons b rest ih =>
    intro elements cache hnd
    simp only [processBuckets]
    split
    · have hcount₁ :
          (logKeys (processElems compute
            (elements.filter (fun x => representedIn hasRep x b)) cache).1).count e =
            (if e ∈ elements ∧ representedIn hasRep e b then 1 else 0) := by
        rw [processElems_keys]
        by_cases hm : e ∈ elements ∧ representedIn hasRep e b
        · rw [if_pos hm]
          exact List.count_eq_one_of_mem (hnd.filter _)
            (List.mem_filter.mpr ⟨hm.1, hm.2⟩)
        · rw [if_neg hm]
          refine List.count_eq_zero_of_not_mem ?_
          intro hc
          exact hm ⟨(List.mem_filter.mp hc).1, (List.mem_filter.mp hc).2⟩
      have hrem := ih (elements.filter (fun x => !(representedIn hasRep x b)))
        (processElems compute (elements.filter (fun x => representedIn hasRep x b)) cache).2
        (hnd.filter _)
      simp only [logKeys, List.map_append, List.count_append] at *
      rw [hcount₁, hrem]
      by_cases h1 : e ∈ elements
      · by_cases h2 : representedIn hasRep e b = true
        · have hnr : e ∉ elements.filter (fun x => !(representedIn hasRep x b)) := by
            intro hc
            have := (List.mem_filter.mp hc).2
            simp [h2] at this
          simp [h1, h2, hnr]
        · have hr : e ∈ elements.filter (fun x => !(representedIn hasRep x b)) := by
            refine List.mem_filter.mpr ⟨h1, ?_⟩
            simp [Bool.eq_false_iff.mpr h2]
          simp only [Bool.not_eq_true] at h2
          simp [h1, h2, hr]
      · have hnr : e ∉ elements.filter (fun x => !(representedIn hasRep x b)) := by
          intro hc; exact h1 (List.mem_filter.mp hc).1
        simp [h1, hnr]
    · rename_i hguard
      rw [ih elements cache hnd]
      by_cases h1 : e ∈ elements
      · have hbe : b = [] := by
          by_contra hbne
          exact hguard ⟨hbne, fun hel => (by simp [hel] at h1)⟩
        subst hbe
        simp [representedIn]
      · simp [h1]

lemma mem_evict {G : Type} (cache : Cache G) (I : List GUID) (kv : GUID × G) :
    kv ∈ evict cache I ↔ kv ∈ cache ∧ kv.1 ∉ I := by
  simp [evict, List.mem_filter, List.elem_iff]

lemma lookupC_evict_mem {G : Type} {I : List GUID} {e : GUID} (he : e ∈ I) :
    ∀ cache : Cache G, lookupC (evict cache I) e = none := by
  intro cache
  induction cache with
  | nil => simp [evict, lookupC]
  | cons kv rest ih =>
    obtain ⟨k, v⟩ := kv
    by_cases hk : I.contains k
    · have hkm : k ∈ I := by simpa [List.elem_iff] using hk
      have h1 : evict ((k, v) :: rest) I = evict rest I := by
        simp [evict, List.filter_cons, hkm]
      rw [h1]; exact ih
    · have hkm : k ∉ I := by simpa [List.elem_iff] using hk
      have hne : k ≠ e := fun hke => hkm (hke ▸ he)
      have h1 : evict ((k, v) :: rest) I = (k, v) :: evict rest I := by
        simp [evict, List.filter_cons, hkm]
      rw [h1, lookupC_cons_ne hne]
      exact ih

lemma lookupC_evict_not_mem {G : Type} {I : List GUID} {e : GUID} (he : e ∉ I) :
    ∀ cache : Cache G, lookupC (evict cache I) e = lookupC cache e := by
  intro cache
  induction cache with
  | nil => simp [evict, lookupC]
  | cons kv rest ih =>
    obtain ⟨k, v⟩ := kv
    by_cases hk : I.contains k
    · have hkm : k ∈ I := by simpa [List.elem_iff] using hk
      have hne : k ≠ e := fun hke => he (hke ▸ hkm)
      have h1 : evict ((k, v) :: rest) I = evict rest I := by
        simp [evict, List.filter_cons, hkm]
      rw [h1, lookupC_cons_ne hne]
      exact ih
    · have hkm : k ∉ I := by simpa [List.elem_iff] using hk
      have h1 : evict ((k, v) :: rest) I = (k, v) :: evict rest I := by
        simp [evict, List.filter_cons, hkm]
      rw [h1]
      by_cases hke : k = e
      · subst hke
        simp [lookupC]
      · rw [lookupC_cons_ne hke, lookupC_cons_ne hke]
        exact ih

/-- A cache entry present at the start of the bucketed run is reused verbatim
at every write of its element and survives the run unchanged. -/
lemma processBuckets_lookup_some {G : Type} (compute : GUID → G)
    (hasRep : GUID → Nat → Bool) {e : GUID} {v : G} :
    ∀ (buckets : List (List Nat)) (elements : List GUID) (cache : Cache G),
      lookupC cache e = some v →
      (∀ g r, (e, g, r) ∈ (processBuckets compute hasRep buckets elements cache).1 →
        g = v ∧ r = false) ∧
      lookupC (processBuckets compute hasRep buckets elements cache).2.2 e = some v := by
  intro buckets
  induction buckets with
  | nil =>
    intro elements cache h
    refine ⟨?_, ?_⟩ <;> simp [processBuckets, h]
  | cons b rest ih =>
    intro elements cache h
    simp only [processBuckets]
    split
    · have h₁ := processElems_lookup_some compute
        (elements.filter (fun x => representedIn hasRep x b)) cache h
      have h₂ := ih (elements.filter (fun x => !(representedIn hasRep x b))) _ h₁.2
      refine ⟨?_, h₂.2⟩
      intro g r hmem
      rcases List.mem_append.mp hmem with hm | hm
      · exact h₁.1 g r hm
      · exact h₂.1 g r hm
    · exact ih elements cache h

/-- An element absent from the cache when the run starts is recomputed at its
(single) write: the geometry written is the freshly computed one. -/
lemma processBuckets_lookup_none {G : Type} (compute : GUID → G)
    (hasRep : GUID → Nat → Bool) {e : GUID} :
    ∀ (buckets : List (List Nat)) (elements : List GUID) (cache : Cache G),
      elements.Nodup → lookupC cache e = none →
      ∀ g r, (e, g, r) ∈ (processBuckets compute hasRep buckets elements cache).1 →
        g = compute e ∧ r = true := by
  intro buckets
  induction buckets with
  | nil =>
    intro elements cache _ _ g r
    simp [processBuckets]
  | cons b rest ih =>
    intro elements cache hnd h g r
    simp only [processBuckets]
    split
    · intro hmem
      have h₁ := processElems_lookup_none compute
        (elements.filter (fun x => representedIn hasRep x b)) cache (hnd.filter _) h
      by_cases hm : e ∈ elements.filter (fun x => representedIn hasRep x b)
      · rcases List.mem_append.mp hmem with hm1 | hm1
        · exact h₁.1 g r hm1
        · have hrep : representedIn hasRep e b = true := (List.mem_filter.mp hm).2
          have hnr : e ∉ elements.filter (fun x => !(representedIn hasRep x b)) := by
            intro hc
            have hc2 := (List.mem_filter.mp hc).2
            simp [hrep] at hc2
          exact absurd hm1 (processBuckets_not_mem compute hasRep rest _ _ hnr g r)
      · rcases List.mem_append.mp hmem with hm1 | hm1
        · exact absurd (mem_log_key hm1) hm
        · exact ih _ _ (hnd.filter _) (h₁.2.2 hm) g r hm1
    · exact ih elements cache hnd h g r

/-- A fragment without the closed flag contributes no polygons. -/
lemma closedPolysOf_eq_nil {el : FragT} (h : is_closed_polygon el = false) :
    closedPolysOf el = [] := by
  rw [closedPolysOf, List.flatMap_eq_nil_iff]
  intro path hpath
  rw [is_closed_polygon] at h
  simp only [List.any_eq_false] at h
  have h2 : path.filter isClosedSubpath = [] := by
    rw [List.filter_eq_nil_iff]
    intro sp hsp
    have h3 := h path hpath
    simp only [List.any_eq_true, not_exists, not_and] at h3
    exact h3 sp hsp
  rw [h2, List.map_nil]

/-- Once past the first two lines, the underlay/annotation loop is a plain
filter dropping closing-svg lines. -/
lemma filterSkipTwo_of_ge :
    ∀ (lines : List String) (i : Nat), 2 ≤ i →
      filterSkipTwo i lines = lines.filter (fun s => !hasSub s "</svg>") := by
  intro lines
  induction lines with
  | nil => intro i _; simp [filterSkipTwo]
  | cons line rest ih =>
    intro i h
    have hni : ¬ i < 2 := Nat.not_lt.mpr h
    by_cases hs : hasSub line "</svg>" <;>
      simp [filterSkipTwo, hni, hs, List.filter_cons, ih (i + 1) (by omega)]

/-- The underlay/annotation loop keeps exactly the lines from the third line
onward that do not contain the closing svg tag. -/
lemma filterSkipTwo_char (lines : List String) :
    filterSkipTwo 0 lines = (lines.drop 2).filter (fun s => !hasSub s "</svg>") := by
  match lines with
  | [] => rfl
  | [x] => simp [filterSkipTwo]
  | x :: y :: rest =>
    simp only [filterSkipTwo, List.drop_succ_cons, List.drop_zero]
    norm_num
    exact filterSkipTwo_of_ge rest 2 (le_refl 2)

/-- Past its first line, the linework loop is the index-free defs-stripping
filter. -/
lemma filterLinework_of_ge :
    ∀ (lines : List String) (i : Nat) (should_skip : Bool), i ≠ 0 →
      filterLinework i should_skip lines = stripDefs should_skip lines := by
  intro lines
  induction lines with
  | nil => intro i skip _; simp [filterLinework, stripDefs]
  | cons line rest ih =>
    intro i skip h
    have hi0 : (i == 0) = false := by simpa using h
    by_cases h1 : hasSub line "</svg>"
    · simp [filterLinework, stripDefs, hi0, h1, ih (i + 1) skip (Nat.succ_ne_zero i)]
    · by_cases h2 : hasSub line "<defs>"
      · simp [filterLinework, stripDefs, hi0, h1, h2, ih (i + 1) true (Nat.succ_ne_zero i)]
      · by_cases h3 : hasSub line "</defs>"
        · simp [filterLinework, stripDefs, hi0, h1, h2, h3,
            ih (i + 1) false (Nat.succ_ne_zero i)]
        · by_cases h4 : skip <;>
            simp [filterLinework, stripDefs, hi0, h1, h2, h3, h4,
              ih (i + 1) _ (Nat.succ_ne_zero i)]

/-- The linework loop keeps the body from the second line onward, stripped of
closing-svg lines and defs blocks. -/
lemma filterLinework_char (lines : List String) :
    filterLinework 0 false lines = stripDefs false (lines.drop 1) := by
  match lines with
  | [] => rfl
  | x :: rest =>
    simp only [filterLinework, List.drop_succ_cons, List.drop_zero]
    norm_num
    exact filterLinework_of_ge rest 1 false one_ne_zero

/-- The append-accumulating loop over interior rings is a filter. -/
lemma foldl_filter_min (m : ℚ) :
    ∀ (l : List (List Pt)) (acc : List (List Pt)),
      l.foldl (fun acc interior =>
        if ringArea interior ≥ m then acc ++ [interior] else acc) acc =
        acc ++ l.filter (fun r => decide (ringArea r ≥ m)) := by
  intro l
  induction l with
  | nil => intro acc; simp
  | cons r rest ih =>
    intro acc
    by_cases h : ringArea r ≥ m <;>
      simp [List.foldl_cons, List.filter_cons, h, ih, List.append_assoc]

lemma gpvil_char (poly : PolyT) (m : ℚ) (acc : List (List Pt)) :
    get_poly_valid_interior_list poly m acc =
      acc ++ poly.interiors.filter (fun r => decide (ringArea r ≥ m)) :=
  foldl_filter_min m poly.interiors acc

/-- Folding the interior collection over a list of polygons concatenates the
retained interiors of each. -/
lemma purge_fold (m : ℚ) :
    ∀ (ps : List PolyT) (acc : List (List Pt)),
      ps.foldl (fun acc poly => get_poly_valid_interior_list poly m acc) acc =
        acc ++ ps.flatMap (fun p => p.interiors.filter (fun r => decide (ringArea r ≥ m))) := by
  intro ps
  induction ps with
  | nil => intro acc; simp
  | cons p rest ih =>
    intro acc
    rw [List.foldl_cons, gpvil_char, ih]
    simp [List.append_assoc]

end Drawing

/-- C2: over the body buckets, every element is serialized at most once
(processed elements being removed from the working set before the next
bucket), and an element of the drawing's working set with a representation in
exactly one priority bucket is serialized exactly once — one fragment tagged
with its GUID. -/
theorem c2_serialize_once {G : Type} (compute : Drawing.GUID → G)
    (hasRep : Drawing.GUID → Nat → Bool) (buckets : List (List Nat))
    (elements : List Drawing.GUID) (cache : Drawing.Cache G)
    (hnd : elements.Nodup) :
    (∀ e, (Drawing.logKeys
        (Drawing.processBuckets compute hasRep buckets elements cache).1).count e ≤ 1) ∧
    (∀ e, e ∈ elements →
      (buckets.countP (fun b => Drawing.representedIn hasRep e b)) = 1 →
      (Drawing.logKeys
        (Drawing.processBuckets compute hasRep buckets elements cache).1).count e = 1) := by
  constructor
  · intro e
    rw [Drawing.processBuckets_count compute hasRep e buckets elements cache hnd]
    split <;> simp
  · intro e hmem hone
    rw [Drawing.processBuckets_count compute hasRep e buckets elements cache hnd]
    have hex : ∃ b ∈ buckets, Drawing.representedIn hasRep e b := by
      by_contra hnex
      push_neg at hnex
      have : buckets.countP (fun b => Drawing.representedIn hasRep e b) = 0 := by
        rw [List.countP_eq_zero]
        intro b hb
        simp [hnex b hb]
      omega
    simp [hmem, hex]

/-- Witness for C2 at a concrete run: two elements, one bucket containing a
context that yields both. -/
theorem c2_serialize_once_witness :
    (["a", "b"] : List Drawing.GUID).Nodup ∧
    (Drawing.logKeys
      (Drawing.processBuckets (fun _ => (0 : Nat)) (fun _ _ => true) [[1]]
        ["a", "b"] []).1).count "a" = 1 := by
  refine ⟨by decide, ?_⟩
  exact (c2_serialize_once (fun _ => (0 : Nat)) (fun _ _ => true) [[1]] ["a", "b"] []
    (by decide)).2 "a" (by decide) (by decide)

/-- C1: the ordered body context-priority buckets are
Plan-Body-exact, Plan-Body-fallback, Model-Body-exact, Model-Body-fallback when
the target view is plan or reflected-plan, and just Model-Body-exact,
Model-Body-fallback otherwise (Plan buckets never included); the analogous
ordering holds for annotation contexts. -/
theorem c1_context_priority (tv : String) (cs : List Drawing.RepContext) :
    (Drawing.bodyContexts tv cs =
      if tv = "PLAN_VIEW" ∨ tv = "REFLECTED_PLAN_VIEW" then
        [Drawing.planBodyExact tv cs, Drawing.planBodyFallback tv cs,
         Drawing.modelBodyExact tv cs, Drawing.modelBodyFallback tv cs]
      else
        [Drawing.modelBodyExact tv cs, Drawing.modelBodyFallback tv cs]) ∧
    (Drawing.annotationContexts tv cs =
      if tv = "PLAN_VIEW" ∨ tv = "REFLECTED_PLAN_VIEW" then
        [Drawing.planAnnExact tv cs, Drawing.planAnnFallback tv cs,
         Drawing.modelAnnExact tv cs, Drawing.modelAnnFallback tv cs]
      else
        [Drawing.modelAnnExact tv cs, Drawing.modelAnnFallback tv cs]) := by
  constructor <;>
  · simp only [Drawing.bodyContexts, Drawing.annotationContexts, Drawing.classifyContexts_eq]
    by_cases h1 : tv = "PLAN_VIEW" <;> by_cases h2 : tv = "REFLECTED_PLAN_VIEW" <;>
      simp [h1, h2]

/-- C3: for every linework-generation invocation with invalidated-GUID set
`I`, the cache entries keyed in `I` are evicted before any bucket is
processed (and all other entries kept), an invalidated element's geometry is
always recomputed when it is serialized, and a non-invalidated element's
cached geometry is reused verbatim — never recomputed, and its cache content
is identical after the run. -/
theorem c3_cache_invalidation {G : Type} (compute : Drawing.GUID → G)
    (hasRep : Drawing.GUID → Nat → Bool) (cache₀ : Drawing.Cache G)
    (I : List Drawing.GUID) (buckets : List (List Nat))
    (elements : List Drawing.GUID) :
    (∀ kv : Drawing.GUID × G, kv ∈ Drawing.evict cache₀ I ↔ kv ∈ cache₀ ∧ kv.1 ∉ I) ∧
    (∀ e ∈ I, elements.Nodup → ∀ g r,
      (e, g, r) ∈ (Drawing.lineworkRun compute hasRep cache₀ I buckets elements).1 →
        g = compute e ∧ r = true) ∧
    (∀ e g₀, e ∉ I → Drawing.lookupC cache₀ e = some g₀ →
      (∀ g r,
        (e, g, r) ∈ (Drawing.lineworkRun compute hasRep cache₀ I buckets elements).1 →
          g = g₀ ∧ r = false) ∧
      Drawing.lookupC
        (Drawing.lineworkRun compute hasRep cache₀ I buckets elements).2.2 e = some g₀) := by
  refine ⟨Drawing.mem_evict cache₀ I, ?_, ?_⟩
  · intro e he hnd g r hmem
    exact Drawing.processBuckets_lookup_none compute hasRep buckets elements
      (Drawing.evict cache₀ I) hnd (Drawing.lookupC_evict_mem he cache₀) g r hmem
  · intro e g₀ he h0
    have hev : Drawing.lookupC (Drawing.evict cache₀ I) e = some g₀ := by
      rw [Drawing.lookupC_evict_not_mem he cache₀]; exact h0
    exact Drawing.processBuckets_lookup_some compute hasRep buckets elements
      (Drawing.evict cache₀ I) hev

/-- Witness for C3: a concrete run with `b` cached and not invalidated (its
entry survives with identical content) and `a` invalidated. -/
theorem c3_cache_invalidation_witness :
    ("b" : Drawing.GUID) ∉ ["a"] ∧
    Drawing.lookupC [("b", (8 : Nat))] "b" = some 8 ∧
    Drawing.lookupC
      (Drawing.lineworkRun (fun _ => (0 : Nat)) (fun _ _ => true)
        [("b", 8)] ["a"] [[1]] ["a", "b"]).2.2 "b" = some 8 :=
  ⟨by decide, by decide,
    ((c3_cache_invalidation (fun _ => (0 : Nat)) (fun _ _ => true)
      [("b", 8)] ["a"] [[1]] ["a", "b"]).2.2 "b" 8 (by decide) (by decide)).2⟩


/-- C4 counterexample: a sub-path with exactly two coincident points meets
the claim's criterion (first and last rounded points coincide) but the code
does not flag it closed — the claimed equivalence fails on this fragment. -/
theorem c4_counterexample :
    ¬ (Drawing.is_closed_polygon Drawing.frag_degenerate =
        Drawing.claimClosed Drawing.frag_degenerate) := by
  have h1 : Drawing.is_closed_polygon Drawing.frag_degenerate = false := by decide
  have h2 : Drawing.claimClosed Drawing.frag_degenerate = true := by
    norm_num [Drawing.claimClosed, Drawing.frag_degenerate, Drawing.roundPt,
      Drawing.round1, round_eq]
  rw [h1, h2]
  decide

/-- C4 amended: a fragment is flagged closed (removed from the base output
and fed to the union) exactly when some sub-path of one of its paths has
more than two points and its first and last points coincide after rounding
each coordinate to one decimal place. -/
theorem c4_closed_ring_criterion (el : Drawing.FragT) :
    Drawing.is_closed_polygon el = true ↔
      ∃ path ∈ el.paths, ∃ sp ∈ path, 2 < sp.length ∧
        Option.map Drawing.roundPt sp.head? = Option.map Drawing.roundPt sp.getLast? := by
  simp [Drawing.is_closed_polygon, Drawing.isClosedSubpath, List.any_eq_true,
    List.head?_map, List.getLast?_map]

/-- C5 counterexample: a group whose only fragment has no closed ring. The
union of the resulting empty polygon list is the empty GeometryCollection
(the shapely behaviour of `unary_union([])`), which is neither `MultiPolygon`
nor `Polygon`, and iterating it at line 591 raises `TypeError` under shapely
2.x — the merge step does not complete without error. -/
theorem c5_counterexample :
    Drawing.is_closed_polygon Drawing.frag_degenerate = false ∧
    Drawing.mergeGroup (fun _ => Except.ok Drawing.ShapelyGeom.emptyS)
      [Drawing.frag_degenerate] =
      Except.error "TypeError: GeometryCollection is not iterable" :=
  ⟨by decide, rfl⟩

/-- C5 amended: for a material group none of whose fragments carries a
closed ring, no fragment of the group is removed from the output document
and no merged fragment is emitted for it, but the merge step does not
complete without error: the union of the group's empty polygon list is the
empty GeometryCollection (shapely's `unary_union([])`), which falls through
the MultiPolygon/Polygon dispatch, and iterating it raises `TypeError`,
aborting the merge step. -/
theorem c5_zero_rings_raises
    (unionFn : List (List Drawing.Pt) → Except String Drawing.ShapelyGeom)
    (els : List Drawing.FragT)
    (hnone : ∀ el ∈ els, Drawing.is_closed_polygon el = false)
    (hunion : unionFn [] = Except.ok Drawing.ShapelyGeom.emptyS) :
    els.filter Drawing.is_closed_polygon = [] ∧
    Drawing.mergeGroup unionFn els =
      Except.error "TypeError: GeometryCollection is not iterable" := by
  have hpolys : els.flatMap Drawing.closedPolysOf = [] := by
    rw [List.flatMap_eq_nil_iff]
    intro el hel
    exact Drawing.closedPolysOf_eq_nil (hnone el hel)
  have hrem : els.filter Drawing.is_closed_polygon = [] := by
    rw [List.filter_eq_nil_iff]
    intro el hel
    simp [hnone el hel]
  refine ⟨hrem, ?_⟩
  simp [Drawing.mergeGroup, hpolys, hrem, hunion, Drawing.geomPolys]

/-- Witness for C5 amended: a group with one ringless fragment. -/
theorem c5_zero_rings_raises_witness :
    (∀ el ∈ [Drawing.frag_degenerate], Drawing.is_closed_polygon el = false) ∧
    [Drawing.frag_degenerate].filter Drawing.is_closed_polygon = [] ∧
    Drawing.mergeGroup (fun _ => Except.ok Drawing.ShapelyGeom.emptyS)
      [Drawing.frag_degenerate] =
      Except.error "TypeError: GeometryCollection is not iterable" :=
  ⟨by decide,
   (c5_zero_rings_raises (fun _ => Except.ok Drawing.ShapelyGeom.emptyS)
     [Drawing.frag_degenerate] (by decide) rfl).1,
   (c5_zero_rings_raises (fun _ => Except.ok Drawing.ShapelyGeom.emptyS)
     [Drawing.frag_degenerate] (by decide) rfl).2⟩

/-- C6 counterexample: a group with a closed ring whose union raises — the
merge step propagates the error instead of emitting the rings and letting
drawing generation produce a document. -/
theorem c6_counterexample :
    Drawing.is_closed_polygon Drawing.frag_closed = true ∧
    Drawing.mergeAllGroups Drawing.unionFail [[Drawing.frag_closed]] =
      Except.error "TopologyException" := by
  constructor
  · norm_num [Drawing.is_closed_polygon, Drawing.frag_closed, Drawing.isClosedSubpath,
      Drawing.roundPt, Drawing.round1, round_eq]
  · rfl

/-- C6 amended: a boolean-union failure on any material group is fatal to the
merge step — the exception propagates and no merged document results from
the invocation (the group's closed rings, already removed, are not
re-emitted). -/
theorem c6_union_failure_fatal
    (unionFn : List (List Drawing.Pt) → Except String Drawing.ShapelyGeom)
    (groups : List (List Drawing.FragT)) (msg : String)
    (h : ∃ g ∈ groups, Drawing.mergeGroup unionFn g = Except.error msg) :
    ∀ res, Drawing.mergeAllGroups unionFn groups ≠ Except.ok res := by
  induction groups with
  | nil => simp at h
  | cons g rest ih =>
    intro res hok
    rcases h with ⟨g2, hg2, herr⟩
    rcases List.mem_cons.mp hg2 with heq | hmem
    · subst heq
      simp [Drawing.mergeAllGroups, herr] at hok
    · rcases hmg : Drawing.mergeGroup unionFn g with msg2 | r
      · simp [Drawing.mergeAllGroups, hmg] at hok
      · rcases hrest : Drawing.mergeAllGroups unionFn rest with m2 | rs
        · simp [Drawing.mergeAllGroups, hmg, hrest] at hok
        · exact ih ⟨g2, hmem, herr⟩ rs hrest

/-- Witness for C6 amended: the failing union aborts the whole merge. -/
theorem c6_union_failure_fatal_witness :
    (∃ g ∈ [[Drawing.frag_closed]],
      Drawing.mergeGroup Drawing.unionFail g = Except.error "TopologyException") ∧
    ∀ res, Drawing.mergeAllGroups Drawing.unionFail [[Drawing.frag_closed]] ≠
      Except.ok res :=
  ⟨⟨[Drawing.frag_closed], by simp, rfl⟩,
   c6_union_failure_fatal Drawing.unionFail [[Drawing.frag_closed]] "TopologyException"
     ⟨[Drawing.frag_closed], by simp, rfl⟩⟩


/-- C7 counterexample: with an underlay of three lines, the code keeps only
the third line while the claim ("body content from the second line onward")
keeps the second and third — the outputs differ. -/
theorem c7_counterexample :
    Drawing.combine_svgs "x</svg>" (some ["A", "B", "C"]) none none ≠
      Drawing.specCombine "x</svg>" (some ["A", "B", "C"]) none none := by decide

/-- C7 amended: composition keeps, from the underlay and annotation layers,
the body content from the third line onward (their first two lines are
dropped), and from the linework layer the content from the second line
onward with its defs blocks stripped; closing-svg lines are dropped
everywhere and the retained content is concatenated underlay, linework,
annotation inside the single boilerplate envelope. -/
theorem c7_composition (bp : String) (u l a : Option (List String)) :
    Drawing.combine_svgs bp u l a =
      (Drawing.removeSub bp "</svg>") ::
        ((match u with
          | some lines => (lines.drop 2).filter (fun s => !Drawing.hasSub s "</svg>")
          | none => []) ++
         (match l with
          | some lines => Drawing.stripDefs false (lines.drop 1)
          | none => []) ++
         (match a with
          | some lines => (lines.drop 2).filter (fun s => !Drawing.hasSub s "</svg>")
          | none => []) ++
         ["</svg>"]) := by
  cases u <;> cases l <;> cases a <;>
    simp [Drawing.combine_svgs, Drawing.filterSkipTwo_char, Drawing.filterLinework_char]

/-- C8 counterexample: with children A = 0 before B = 1, post-processing
reverses them to [1, 0]; under paint order B does not render above A. -/
theorem c8_counterexample :
    Drawing.move_projection_to_bottom [Drawing.TopEl.gEl [0, 1]] =
      [Drawing.TopEl.gEl [1, 0]] ∧
    ¬ Drawing.rendersAbove [1, 0] 1 0 :=
  ⟨rfl, by decide⟩

/-- C8 amended: post-processing reverses the top-level group's direct
children, so of two children A before B in raw serialization order, A (not B)
renders visually above B under paint-order rendering. -/
theorem c8_reversal_order (cs : List Nat) (rest : List Drawing.TopEl)
    (i j : Fin cs.length) (hij : i < j) :
    Drawing.move_projection_to_bottom (Drawing.TopEl.gEl cs :: rest) =
      Drawing.TopEl.gEl cs.reverse :: rest ∧
    Drawing.rendersAbove cs.reverse (cs.get i) (cs.get j) := by
  refine ⟨rfl, ?_⟩
  have hn : cs.reverse.length = cs.length := List.length_reverse cs
  have hj : (j : Nat) < cs.length := j.isLt
  have hi : (i : Nat) < cs.length := i.isLt
  have hij2 : (i : Nat) < (j : Nat) := hij
  refine ⟨⟨cs.length - 1 - j, by omega⟩, ⟨cs.length - 1 - i, by omega⟩, ?_, ?_, ?_⟩
  · simp only [Fin.mk_lt_mk]
    omega
  · have hidx : cs.length - 1 - (cs.length - 1 - (j : Nat)) = (j : Nat) := by omega
    simp [List.get_eq_getElem, List.getElem_reverse, hidx]
  · have hidx : cs.length - 1 - (cs.length - 1 - (i : Nat)) = (i : Nat) := by omega
    simp [List.get_eq_getElem, List.getElem_reverse, hidx]

/-- Witness for C8 amended at children [0, 1]. -/
theorem c8_reversal_order_witness :
    ((⟨0, by decide⟩ : Fin 2) < (⟨1, by decide⟩ : Fin 2)) ∧
    Drawing.rendersAbove ([0, 1] : List Nat).reverse 0 1 :=
  ⟨by decide,
   (c8_reversal_order [0, 1] [] ⟨0, by decide⟩ ⟨1, by decide⟩ (by decide)).2⟩


/-- C9: the code computes the unit conversion of the fixed real-world
tolerance and then returns the unconverted value — with a millimetre project
(scale factor 1000 from metres) and tolerance 3, the hole-purging threshold
actually used is 3, not the converted 3000 the spec describes. -/
theorem c9_threshold_not_converted :
    Drawing.get_converted_tolerance 1000 3 = 3 ∧
    Drawing.convertLength 3 1000 = 3000 ∧ (3 : ℚ) ≠ 3000 := by
  refine ⟨rfl, ?_, by norm_num⟩
  norm_num [Drawing.convertLength]

/-- C10: hole purging on a `MultiPolygon` always returns a single polygon
whose exterior is the exterior of the last sub-polygon iterated, whose holes
are the retained (at-or-above-threshold) interior rings collected from all
sub-polygons, and which discards every other sub-polygon's exterior. -/
theorem c10_multipolygon_purge (ps : List Drawing.PolyT) (m : ℚ) (h : ps ≠ []) :
    Drawing.get_purged_inner_holes_poly (Drawing.ShapelyGeom.multiPolygonS ps) m =
      some ⟨(ps.getLast h).exterior,
        ps.flatMap (fun p =>
          p.interiors.filter (fun r => decide (Drawing.ringArea r ≥ m)))⟩ := by
  simp only [Drawing.get_purged_inner_holes_poly]
  rw [List.getLast?_eq_getLast ps h, Drawing.purge_fold]
  simp

/-- Witness for C10: two sub-polygons, one under-threshold hole and one
above-threshold hole; the result keeps the last exterior and only the big
hole. -/
theorem c10_multipolygon_purge_witness :
    ([Drawing.polyA, Drawing.polyB] : List Drawing.PolyT) ≠ [] ∧
    Drawing.get_purged_inner_holes_poly
      (Drawing.ShapelyGeom.multiPolygonS [Drawing.polyA, Drawing.polyB]) 3 =
      some ⟨Drawing.polyB.exterior, [Drawing.ringBig]⟩ := by
  refine ⟨by decide, ?_⟩
  rw [c10_multipolygon_purge [Drawing.polyA, Drawing.polyB] 3 (by decide)]
  norm_num [Drawing.polyA, Drawing.polyB, Drawing.ringSmall, Drawing.ringBig,
    Drawing.ringArea, Drawing.shoelaceAux, List.getLast]
